import Mathlib

/-!
Verification of the collaborative-editor relay server (`collab_editor2.c`).

The development shallowly embeds the parts of the server that the checked
properties concern: the WebSocket frame codec (`ws_send_frame`,
`ws_read_frame`), the client registry (`add_client`, `remove_client`,
`broadcast_message`), and the per-message dispatch of `handle_websocket`.
Bytes are modelled as `Nat`, C strings as `List Char` (strlen semantics:
payloads contain no NUL byte), and the mutex discipline of
`broadcast_message` as an explicit event trace.
-/

namespace CollabEditor

/-- The double-quote character (code point 34), the field delimiter the C
parser scans for with `strchr(p, 34)`. -/
def dquote : Char := Char.ofNat 34

/-! ## Frame codec (`ws_send_frame`, lines 65-91; `ws_read_frame`, lines 282-322) -/

/-- `ws_send_frame`: builds one unmasked text frame: byte `0x81`, the payload
length in the minimal tier (7-bit inline below 126, 16-bit big-endian below
65536, else 64-bit big-endian), then the payload bytes.  The construction is
transcribed together with its C limits: the frame is assembled in a fixed
`unsigned char frame[65536]`, so when the written header plus payload
(`idx + len`) exceeds 65536 bytes the `memcpy` writes past the array, and
the 64-bit tier shifts the 32-bit `int` length by 32..56 bits; both are
undefined executions, modelled as `none`. -/
def ws_send_frame (message : List Nat) : Option (List Nat) :=
  let len := message.length
  if len < 126 then
    if 2 + len ≤ 65536 then some ([0x81, len] ++ message) else none
  else if len < 65536 then
    if 4 + len ≤ 65536 then
      some ([0x81, 126, (len >>> 8) &&& 0xFF, len &&& 0xFF] ++ message)
    else none
  else none

/-- `ws_read_frame`: returns `none` both when the buffer is shorter than the
declared frame and when the opcode is the close opcode `0x8` — the C function
returns `NULL` in both cases, with no distinct close signal.  When the mask
bit of the second byte is set, the payload is unmasked by XOR with the 4-byte
mask cycled.  The 64-bit tier's length accumulator is a 32-bit signed
`int`: a declared length of `2 ^ 31` or more overflows it (undefined),
modelled as `none`. -/
def ws_read_frame (buffer : List Nat) : Option (List Nat) :=
  if buffer.length < 2 then none else
  if buffer.getD 0 0 &&& 0x0F = 8 then none else
  let masked := buffer.getD 1 0 &&& 0x80
  let len7 := buffer.getD 1 0 &&& 0x7F
  let lenIdx : Option (Nat × Nat) :=
    if len7 = 126 then
      if buffer.length < 4 then none
      else some (((buffer.getD 2 0) <<< 8) ||| buffer.getD 3 0, 4)
    else if len7 = 127 then
      if buffer.length < 10 then none
      else
        -- The C accumulates the declared length into a 32-bit signed int;
        -- a declared value of 2^31 or more overflows the shift (undefined),
        -- modelled as none.
        let declared :=
          (List.range 8).foldl (fun acc i => (acc <<< 8) ||| buffer.getD (2 + i) 0) 0
        if declared < 2 ^ 31 then some (declared, 10) else none
    else some (len7, 2)
  match lenIdx with
  | none => none
  | some (len, idx0) =>
    let maskIdx : Option (List Nat × Nat) :=
      if masked ≠ 0 then
        if buffer.length < idx0 + 4 then none
        else some ((buffer.drop idx0).take 4, idx0 + 4)
      else some ([], idx0)
    match maskIdx with
    | none => none
    | some (mask, idx) =>
      if buffer.length < idx + len then none
      else some ((List.range len).map (fun i =>
        if masked ≠ 0 then buffer.getD (idx + i) 0 ^^^ mask.getD (i % 4) 0
        else buffer.getD (idx + i) 0))

/-! ### Arithmetic helper lemmas for the codec -/

/-- Below `2 ^ k`, masking with the bit `2 ^ k` gives zero. -/
lemma and_two_pow_eq_zero_of_lt {n k : Nat} (h : n < 2 ^ k) : n &&& 2 ^ k = 0 := by
  rw [Nat.and_two_pow, Nat.testBit_lt_two_pow h]
  simp

/-- Bitwise or of a left-shifted value with a small value is addition. -/
lemma shiftLeft_or_eq_add {a b k : Nat} (h : b < 2 ^ k) :
    (a <<< k) ||| b = 2 ^ k * a + b := by
  apply Nat.eq_of_testBit_eq
  intro i
  rw [Nat.testBit_or, Nat.testBit_shiftLeft, Nat.testBit_mul_pow_two_add a h i]
  rcases Nat.lt_or_ge i k with hik | hik
  · simp [hik, Nat.not_le_of_lt hik]
  · have hb : b.testBit i = false :=
      Nat.testBit_lt_two_pow (lt_of_lt_of_le h (Nat.pow_le_pow_right (by omega) hik))
    simp [Nat.not_lt_of_le hik, hik, hb]

/-- Masking with `0x7F` is reduction modulo 128. -/
lemma and_127_eq_mod (n : Nat) : n &&& 127 = n % 128 := by
  have := Nat.and_pow_two_sub_one_eq_mod n 7
  norm_num at this
  exact this

/-- Masking with `0xFF` is reduction modulo 256. -/
lemma and_255_eq_mod (n : Nat) : n &&& 255 = n % 256 := by
  have := Nat.and_pow_two_sub_one_eq_mod n 8
  norm_num at this
  exact this

/-- Values below 128 have a clear mask bit `0x80`. -/
lemma and_128_eq_zero_of_lt {n : Nat} (h : n < 128) : n &&& 128 = 0 :=
  and_two_pow_eq_zero_of_lt (k := 7) (by omega)

/-- Reading a list back element by element with `getD` reproduces the list. -/
lemma map_getD_range (l : List Nat) :
    (List.range l.length).map (fun i => l.getD i 0) = l := by
  induction l with
  | nil => rfl
  | cons x xs ih =>
    have : List.range (xs.length + 1) = 0 :: (List.range xs.length).map (· + 1) :=
      List.range_succ_eq_map xs.length
    simp only [List.length_cons, this, List.map_cons, List.map_map]
    refine congrArg₂ _ rfl ?_
    have : ((fun i => (x :: xs).getD i 0) ∘ (· + 1)) = fun i => xs.getD i 0 := by
      funext i
      simp [List.getD_cons_succ]
    rw [this, ih]

/-- One decode step of the 64-bit length tier: shifting the accumulator left
by a byte and or-ing a byte below 256 is base-256 accumulation. -/
lemma shiftLeft8_or_mod (a m : Nat) : (a <<< 8) ||| (m % 256) = 256 * a + m % 256 := by
  have h := shiftLeft_or_eq_add (a := a) (k := 8) (b := m % 256) (Nat.mod_lt _ (by norm_num))
  norm_num at h
  exact h

/-- Claim C2 (code bug): the round-trip `Decode(Encode(text)) == text` holds
for every payload whose frame fits the 65536-byte frame array (length at
most 65532, which covers the boundaries 0, 125 and 126), but at the claimed
boundaries 65535 and 65536 the construction of `ws_send_frame` writes past
its fixed 65536-byte buffer — and at 65536 additionally shifts its 32-bit
`int` length past the width of `int` — so encoding is undefined there and
the round-trip fails. -/
theorem ws_frame_roundtrip_boundary :
    ws_send_frame (List.replicate 65535 65) = none
    ∧ ws_send_frame (List.replicate 65536 65) = none
    ∧ ∀ message : List Nat, message.length ≤ 65532 →
        (ws_send_frame message).bind ws_read_frame = some message := by
  refine ⟨?_, ?_, ?_⟩
  · unfold ws_send_frame
    simp only [List.length_replicate]
    rw [if_neg (by norm_num), if_pos (by norm_num), if_neg (by norm_num)]
  · unfold ws_send_frame
    simp only [List.length_replicate]
    rw [if_neg (by norm_num), if_neg (by norm_num)]
  · intro message hm
    rcases Nat.lt_or_ge message.length 126 with h1 | h1
    · -- 7-bit inline length tier
      have hsend : ws_send_frame message = some (0x81 :: message.length :: message) := by
        simp [ws_send_frame, h1, show 2 + message.length ≤ 65536 by omega]
      have hmask : message.length &&& 128 = 0 := and_128_eq_zero_of_lt (by omega)
      have hl : message.length &&& 127 = message.length := by
        rw [and_127_eq_mod]
        exact Nat.mod_eq_of_lt (by omega)
      have hget : ∀ i, (0x81 :: message.length :: message).getD (2 + i) 0 =
          message.getD i 0 := by
        intro i
        rw [show 2 + i = i + 1 + 1 by omega, List.getD_cons_succ, List.getD_cons_succ]
      rw [hsend, Option.some_bind]
      unfold ws_read_frame
      simp only [List.length_cons, List.getD_cons_zero, List.getD_cons_succ, hmask, hl]
      rw [if_neg (by omega), if_neg (by decide), if_neg (by omega), if_neg (by omega)]
      norm_num
      refine ⟨by omega, ?_⟩
      simp only [← List.getD_eq_getElem?_getD]
      simp only [hget]
      exact map_getD_range message
    · -- 16-bit length tier, within the frame buffer
      have h2 : message.length < 65536 := by omega
      have hsend : ws_send_frame message =
          some (0x81 :: 126 :: ((message.length >>> 8) &&& 0xFF) ::
            (message.length &&& 0xFF) :: message) := by
        simp [ws_send_frame, show ¬ message.length < 126 by omega, h2,
          show 4 + message.length ≤ 65536 by omega]
      have e1 : (message.length >>> 8) &&& 0xFF = message.length / 256 := by
        rw [and_255_eq_mod, Nat.shiftRight_eq_div_pow]
        norm_num
        omega
      have e2 : message.length &&& 0xFF = message.length % 256 := and_255_eq_mod _
      have e3 : ((message.length / 256) <<< 8) ||| (message.length % 256) =
          message.length := by
        rw [shiftLeft8_or_mod]
        omega
      have hget : ∀ i,
          (0x81 :: 126 :: (message.length / 256) :: (message.length % 256) :: message).getD
            (4 + i) 0 = message.getD i 0 := by
        intro i
        rw [show 4 + i = i + 1 + 1 + 1 + 1 by omega]
        simp only [List.getD_cons_succ]
      rw [hsend, Option.some_bind]
      unfold ws_read_frame
      simp only [List.length_cons, List.getD_cons_zero, List.getD_cons_succ, e1, e2,
        show (126 : Nat) &&& 128 = 0 by decide, show (126 : Nat) &&& 127 = 126 by decide]
      rw [if_neg (by omega), if_neg (by decide)]
      simp only [if_true]
      rw [if_neg (by omega)]
      simp only [e3]
      norm_num
      refine ⟨by omega, ?_⟩
      simp only [← List.getD_eq_getElem?_getD]
      simp only [hget]
      exact map_getD_range message

/-- Witness for the defined-domain part of C2 at a concrete payload. -/
theorem ws_frame_roundtrip_boundary_witness :
    [104, 105].length ≤ 65532
    ∧ (ws_send_frame [104, 105]).bind ws_read_frame = some [104, 105] :=
  ⟨by decide, ws_frame_roundtrip_boundary.2.2 [104, 105] (by decide)⟩

/-! ## Session registry (`struct Client`, lines 20-32; `add_client`, lines 36-45;
`remove_client`, lines 47-63; `broadcast_message`, lines 93-108) -/

/-- One registered client (`struct Client`): socket fd, username, current
file, cursor position, display color and liveness flag.  The two mutexes are
not data; the lock discipline of `broadcast_message` is modelled separately
as an event trace. -/
structure Client where
  socket : Nat
  username : List Char
  current_file : List Char
  cursor_pos : Int
  color : List Char
  active : Nat
deriving DecidableEq

/-- The fixed 10-entry color palette `colors[]`. -/
def colors : List (List Char) :=
  ["#FF6B6B", "#4ECDC4", "#45B7D1", "#FFA07A", "#98D8C8",
   "#F7DC6F", "#BB8FCE", "#85C1E2", "#FF69B4", "#20B2AA"].map String.toList

/-- `add_client`: pushes the client onto the front of the global list, sets
`active = 1` and assigns `colors[rand() % 10]`; `r` stands for the value
returned by `rand()`. -/
def add_client (c : Client) (r : Nat) (clients : List Client) : List Client :=
  { c with active := 1, color := colors.getD (r % 10) [] } :: clients

/-- `remove_client`: unlinks the first client carrying the given socket, if
any (the C loop breaks after the first match and does nothing when no node
matches). -/
def remove_client (clients : List Client) (socket : Nat) : List Client :=
  match clients with
  | [] => []
  | c :: rest => if c.socket = socket then rest else c :: remove_client rest socket

/-- The targets selected by the loop of `broadcast_message`: every client
whose socket differs from the excluded one and whose liveness flag is
non-zero, in list order. -/
def broadcast_targets (clients : List Client) (exclude : Nat) : List Client :=
  clients.filter (fun c => c.socket != exclude && c.active != 0)

/-- The frame `ws_send_frame` writes for a C string message.  The messages
`broadcast_message` is called with are built in 65536-byte C buffers, so
their frames stay within the defined tiers; the default is never reached
for them. -/
def encode_frame (message : List Char) : List Nat :=
  (ws_send_frame (message.map Char.toNat)).getD []

/-- The sends performed by one `broadcast_message(message, exclude)` call:
one `(socket, frame)` pair per selected target, in loop order. -/
def broadcast_sends (clients : List Client) (message : List Char) (exclude : Nat) :
    List (Nat × List Nat) :=
  (broadcast_targets clients exclude).map (fun c => (c.socket, encode_frame message))

/-- Each send of a broadcast goes to a socket of the client list. -/
lemma broadcast_sends_socket_mem {clients : List Client} {message : List Char}
    {exclude : Nat} {e : Nat × List Nat} (he : e ∈ broadcast_sends clients message exclude) :
    e.1 ∈ clients.map Client.socket ∧ e.1 ≠ exclude ∧ e.2 = encode_frame message := by
  simp only [broadcast_sends, broadcast_targets, List.mem_map, List.mem_filter] at he
  obtain ⟨c, ⟨hc, hcond⟩, rfl⟩ := he
  simp only [Bool.and_eq_true, bne_iff_ne, ne_eq] at hcond
  exact ⟨List.mem_map_of_mem Client.socket hc, hcond.1, rfl⟩

/-- Claim C1: a `broadcast_message(m, S)` call sends exactly one encoded copy
of `m` to every client in the list whose socket differs from `S` — none is
skipped, none receives a duplicate — and sends nothing to socket `S`.  The
hypotheses restate two registry invariants: every registered client has its
liveness flag set (claim C10), and sockets are pairwise distinct (one live
session per connection handle). -/
theorem broadcast_no_skip_no_dup (l : List Client) (m : List Char) (S : Nat)
    (hact : ∀ c ∈ l, c.active = 1)
    (hnd : (l.map Client.socket).Nodup) :
    (∀ c ∈ l, c.socket ≠ S →
       (broadcast_sends l m S).count (c.socket, encode_frame m) = 1)
    ∧ (∀ e ∈ broadcast_sends l m S, e.1 ≠ S) := by
  constructor
  · induction l with
    | nil => intro c hc; exact absurd hc (List.not_mem_nil c)
    | cons d t ih =>
      intro c hc hcS
      have hdt : d.socket ∉ t.map Client.socket := (List.nodup_cons.mp hnd).1
      have hndt : (t.map Client.socket).Nodup := (List.nodup_cons.mp hnd).2
      have hactt : ∀ x ∈ t, x.active = 1 := fun x hx => hact x (List.mem_cons_of_mem d hx)
      rcases List.mem_cons.mp hc with rfl | hct
      · -- the head client itself
        have hcond : (c.socket != S && c.active != 0) = true := by
          have := hact c (List.mem_cons_self c t)
          simp [hcS, this]
        have hsends : broadcast_sends (c :: t) m S =
            (c.socket, encode_frame m) :: broadcast_sends t m S := by
          simp [broadcast_sends, broadcast_targets, hcond]
        rw [hsends, List.count_cons_self]
        have hzero : (broadcast_sends t m S).count (c.socket, encode_frame m) = 0 := by
          rw [List.count_eq_zero]
          intro hmem
          exact hdt (broadcast_sends_socket_mem hmem).1
        rw [hzero]
      · -- a client of the tail
        have hcount := ih hactt hndt c hct hcS
        have hne : c.socket ≠ d.socket := by
          intro heq
          exact hdt (heq ▸ List.mem_map_of_mem Client.socket hct)
        by_cases hcond : (d.socket != S && d.active != 0) = true
        · have hsends : broadcast_sends (d :: t) m S =
              (d.socket, encode_frame m) :: broadcast_sends t m S := by
            simp [broadcast_sends, broadcast_targets, hcond]
          rw [hsends, List.count_cons_of_ne (by simp [Prod.ext_iff]; intro h; exact absurd h hne), hcount]
        · have hsends : broadcast_sends (d :: t) m S = broadcast_sends t m S := by
            simp [broadcast_sends, broadcast_targets, List.filter_cons, hcond]
          rw [hsends, hcount]
  · intro e he
    exact (broadcast_sends_socket_mem he).2.1

/-- Witness for C1: two clients, one excluded socket. -/
theorem broadcast_no_skip_no_dup_witness :
    (∀ c ∈ [Client.mk 1 [] [] 0 [] 1, Client.mk 2 [] [] 0 [] 1], c.active = 1)
    ∧ (([Client.mk 1 [] [] 0 [] 1, Client.mk 2 [] [] 0 [] 1].map Client.socket).Nodup)
    ∧ ((∀ c ∈ [Client.mk 1 [] [] 0 [] 1, Client.mk 2 [] [] 0 [] 1], c.socket ≠ 2 →
         (broadcast_sends [Client.mk 1 [] [] 0 [] 1, Client.mk 2 [] [] 0 [] 1] [] 2).count
           (c.socket, encode_frame []) = 1)
       ∧ (∀ e ∈ broadcast_sends [Client.mk 1 [] [] 0 [] 1, Client.mk 2 [] [] 0 [] 1] [] 2,
           e.1 ≠ 2)) :=
  ⟨by decide, by decide,
    broadcast_no_skip_no_dup [Client.mk 1 [] [] 0 [] 1, Client.mk 2 [] [] 0 [] 1] [] 2
      (by decide) (by decide)⟩

/-- Removing a socket that no client carries leaves the list unchanged. -/
lemma remove_client_not_mem {l : List Client} {s : Nat}
    (h : ∀ c ∈ l, c.socket ≠ s) : remove_client l s = l := by
  induction l with
  | nil => rfl
  | cons d t ih =>
    simp only [remove_client, if_neg (h d (List.mem_cons_self d t))]
    rw [ih (fun c hc => h c (List.mem_cons_of_mem d hc))]

/-- Claim C7: `remove_client` on a socket that is not present is a no-op, and
— under the registry invariant that a socket occurs at most once — removing
the same socket twice has the same effect as removing it once. -/
theorem remove_client_idempotent (l : List Client) (s : Nat) :
    ((∀ c ∈ l, c.socket ≠ s) → remove_client l s = l)
    ∧ ((l.countP (fun c => c.socket == s)) ≤ 1 →
        remove_client (remove_client l s) s = remove_client l s) := by
  constructor
  · exact remove_client_not_mem
  · intro hcount
    induction l with
    | nil => rfl
    | cons d t ih =>
      by_cases hd : d.socket = s
      · have ht : t.countP (fun c => c.socket == s) = 0 := by
          rw [List.countP_cons_of_pos _ _ (by simp [hd])] at hcount
          omega
        have hnone : ∀ c ∈ t, c.socket ≠ s := by
          intro c hc hcs
          have := List.countP_eq_zero.mp ht c hc
          simp [hcs] at this
        simp only [remove_client, if_pos hd]
        exact remove_client_not_mem hnone
      · have ht : t.countP (fun c => c.socket == s) ≤ 1 := by
          rw [List.countP_cons_of_neg _ _ (by simp [hd])] at hcount
          exact hcount
        simp only [remove_client, if_neg hd]
        rw [ih ht]

/-- Witness for C7 on a concrete two-client list. -/
theorem remove_client_idempotent_witness :
    ((∀ c ∈ [Client.mk 1 [] [] 0 [] 1], c.socket ≠ 5) →
      remove_client [Client.mk 1 [] [] 0 [] 1] 5 = [Client.mk 1 [] [] 0 [] 1])
    ∧ (([Client.mk 1 [] [] 0 [] 1].countP (fun c => c.socket == 5)) ≤ 1 →
        remove_client (remove_client [Client.mk 1 [] [] 0 [] 1] 5) 5 =
          remove_client [Client.mk 1 [] [] 0 [] 1] 5) :=
  remove_client_idempotent [Client.mk 1 [] [] 0 [] 1] 5

/-! ## Lock discipline of `broadcast_message` (lines 93-108)

The C function takes `clients_mutex`, walks the list, and for each selected
target takes the target's own lock, calls `ws_send_frame`, and releases the
target's lock; `clients_mutex` is released only after the loop.  The call is
modelled as the exact sequence of lock/unlock/send events it performs. -/

/-- One lock/unlock/send event of `broadcast_message`. -/
inductive LockEvent where
  | reg_lock : LockEvent
  | reg_unlock : LockEvent
  | sess_lock : Nat → LockEvent
  | sess_unlock : Nat → LockEvent
  | send : Nat → List Nat → LockEvent
deriving DecidableEq

/-- The events one loop iteration of `broadcast_message` performs for a
client: nothing when the client is excluded or inactive, else lock, send,
unlock on that client. -/
def client_trace (message : List Char) (exclude : Nat) (c : Client) : List LockEvent :=
  if c.socket != exclude && c.active != 0 then
    [LockEvent.sess_lock c.socket, LockEvent.send c.socket (encode_frame message),
     LockEvent.sess_unlock c.socket]
  else []

/-- The full event sequence of one `broadcast_message(message, exclude)`
call: take `clients_mutex`, run the loop, release `clients_mutex`. -/
def broadcast_trace (clients : List Client) (message : List Char) (exclude : Nat) :
    List LockEvent :=
  LockEvent.reg_lock :: ((clients.map (client_trace message exclude)).flatten
    ++ [LockEvent.reg_unlock])

/-- Whether an event is a network send. -/
def is_send : LockEvent → Bool
  | LockEvent.send _ _ => true
  | _ => false

/-- The registry lock is held before position `i` of a trace when it has
been acquired more often than released there. -/
def reg_lock_held (tr : List LockEvent) (i : Nat) : Bool :=
  decide ((tr.take i).count LockEvent.reg_unlock < (tr.take i).count LockEvent.reg_lock)

/-- The session lock of socket `s` is held before position `i` of a trace
when it has been acquired more often than released there. -/
def sess_lock_held (tr : List LockEvent) (i : Nat) (s : Nat) : Bool :=
  decide ((tr.take i).count (LockEvent.sess_unlock s) <
    (tr.take i).count (LockEvent.sess_lock s))

/-- Whether some send of the trace happens while the registry lock is
held. -/
def send_under_reg_lock (tr : List LockEvent) : Bool :=
  (List.range tr.length).any
    (fun i => is_send (tr.getD i LockEvent.reg_unlock) && reg_lock_held tr i)

/-- Counterexample to claim C3 as stated: with a single registered client
and a foreign excluded socket, `broadcast_message` performs its send while
`clients_mutex` is held — there is no snapshot-then-release phase in the
code. -/
theorem broadcast_send_under_lock_cex :
    send_under_reg_lock (broadcast_trace [Client.mk 1 [] [] 0 [] 1] [] 0) = true := by
  decide

/-- A loop iteration emits no registry lock events. -/
lemma client_trace_no_reg {m : List Char} {S : Nat} {c : Client} {e : LockEvent}
    (he : e ∈ client_trace m S c) :
    e ≠ LockEvent.reg_lock ∧ e ≠ LockEvent.reg_unlock := by
  unfold client_trace at he
  split at he
  · simp only [List.mem_cons, List.not_mem_nil, or_false] at he
    rcases he with rfl | rfl | rfl <;> exact ⟨by simp, by simp⟩
  · simp at he

/-- The loop body of a broadcast emits no registry lock events. -/
lemma flatten_no_reg {m : List Char} {S : Nat} {cs : List Client} {e : LockEvent}
    (he : e ∈ (cs.map (client_trace m S)).flatten) :
    e ≠ LockEvent.reg_lock ∧ e ≠ LockEvent.reg_unlock := by
  rw [List.mem_flatten] at he
  obtain ⟨tr, htr, he⟩ := he
  rw [List.mem_map] at htr
  obtain ⟨c, _, rfl⟩ := htr
  exact client_trace_no_reg he

/-- A position holding a send is inside the list. -/
lemma getD_send_lt_length {tr : List LockEvent} {j s : Nat} {fr : List Nat}
    (h : tr.getD j LockEvent.reg_unlock = LockEvent.send s fr) : j < tr.length := by
  by_contra hj
  rw [List.getD_eq_default _ _ (by omega)] at h
  exact absurd h (by simp)

/-- At any send inside the loop body, the sent-to session's lock has been
acquired once more than released. -/
lemma flatten_sess_counts (m : List Char) (S : Nat) :
    ∀ (cs : List Client) (j s : Nat) (fr : List Nat),
      (cs.map (client_trace m S)).flatten.getD j LockEvent.reg_unlock =
        LockEvent.send s fr →
      ((cs.map (client_trace m S)).flatten.take j).count (LockEvent.sess_unlock s) <
        ((cs.map (client_trace m S)).flatten.take j).count (LockEvent.sess_lock s) := by
  intro cs
  induction cs with
  | nil => intro j s fr h; simp at h
  | cons c cs ih =>
    intro j s fr h
    by_cases hcond : (c.socket != S && c.active != 0) = true
    · have htc : client_trace m S c =
          [LockEvent.sess_lock c.socket, LockEvent.send c.socket (encode_frame m),
           LockEvent.sess_unlock c.socket] := by
        simp [client_trace, hcond]
      simp only [List.map_cons, List.flatten_cons, htc, List.cons_append, List.nil_append] at h ⊢
      match j with
      | 0 => simp at h
      | 1 =>
        simp only [List.getD_cons_succ, List.getD_cons_zero] at h
        have hs : s = c.socket := by
          cases h
          rfl
        subst hs
        simp [List.count_cons]
      | 2 => simp at h
      | (k + 3) =>
        simp only [List.getD_cons_succ] at h
        have ihk := ih k s fr h
        by_cases hsc : c.socket = s
        · simp only [List.take_succ_cons, List.count_cons, hsc]
          simp
          omega
        · simp only [List.take_succ_cons, List.count_cons]
          have h1 : (LockEvent.sess_unlock s == LockEvent.sess_lock s) = false := by simp
          have h2 : (LockEvent.sess_unlock s == LockEvent.sess_unlock c.socket) = false := by
            simp
            intro heq
            exact hsc heq.symm
          have h3 : (LockEvent.sess_lock s == LockEvent.sess_lock c.socket) = false := by
            simp
            intro heq
            exact hsc heq.symm
          simp [h2, h3]
          omega
    · have htc : client_trace m S c = [] := by
        simp [client_trace] at hcond ⊢
        intro hne
        rcases hcond hne with hact
        simp [hact]
      simp only [List.map_cons, List.flatten_cons, htc, List.nil_append] at h ⊢
      exact ih j s fr h

/-- Claim C3 amended: `broadcast_message` holds the registry's exclusive
lock for the whole fan-out — every send it performs happens while
`clients_mutex` is held — and each send additionally happens while the
target session's own lock is held. -/
theorem broadcast_send_locks (l : List Client) (m : List Char) (S : Nat) (i s : Nat)
    (fr : List Nat)
    (h : (broadcast_trace l m S).getD i LockEvent.reg_unlock = LockEvent.send s fr) :
    reg_lock_held (broadcast_trace l m S) i = true
    ∧ sess_lock_held (broadcast_trace l m S) i s = true := by
  match i with
  | 0 =>
    rw [broadcast_trace, List.getD_cons_zero] at h
    exact absurd h (by simp)
  | (j + 1) =>
    rw [broadcast_trace, List.getD_cons_succ] at h
    have hjlen : j < ((l.map (client_trace m S)).flatten ++ [LockEvent.reg_unlock]).length :=
      getD_send_lt_length h
    rw [List.length_append, List.length_singleton] at hjlen
    have hjb : j < (l.map (client_trace m S)).flatten.length := by
      rcases Nat.lt_or_ge j (l.map (client_trace m S)).flatten.length with hlt | hge
      · exact hlt
      · exfalso
        have hj : j = (l.map (client_trace m S)).flatten.length := by omega
        rw [List.getD_append_right _ _ _ _ (by omega), hj] at h
        simp at h
    have hbody : ((l.map (client_trace m S)).flatten ++ [LockEvent.reg_unlock]).getD j
        LockEvent.reg_unlock = (l.map (client_trace m S)).flatten.getD j
          LockEvent.reg_unlock :=
      List.getD_append _ _ _ _ hjb
    rw [hbody] at h
    have htake : (broadcast_trace l m S).take (j + 1) =
        LockEvent.reg_lock :: (l.map (client_trace m S)).flatten.take j := by
      rw [broadcast_trace, List.take_succ_cons, List.take_append_of_le_length (by omega)]
    constructor
    · rw [reg_lock_held, htake]
      have hzero : ((l.map (client_trace m S)).flatten.take j).count LockEvent.reg_lock = 0 := by
        rw [List.count_eq_zero]
        intro hmem
        exact (flatten_no_reg (List.take_subset j _ hmem)).1 rfl
      have hzero2 : ((l.map (client_trace m S)).flatten.take j).count
          LockEvent.reg_unlock = 0 := by
        rw [List.count_eq_zero]
        intro hmem
        exact (flatten_no_reg (List.take_subset j _ hmem)).2 rfl
      simp [List.count_cons, hzero, hzero2]
    · rw [sess_lock_held, htake]
      have hcounts := flatten_sess_counts m S l j s fr h
      simp [List.count_cons]
      omega

/-- Witness for the amended C3 theorem at a concrete one-client broadcast. -/
theorem broadcast_send_locks_witness :
    (broadcast_trace [Client.mk 1 [] [] 0 [] 1] [] 0).getD 2 LockEvent.reg_unlock =
      LockEvent.send 1 (encode_frame [])
    ∧ (reg_lock_held (broadcast_trace [Client.mk 1 [] [] 0 [] 1] [] 0) 2 = true
       ∧ sess_lock_held (broadcast_trace [Client.mk 1 [] [] 0 [] 1] [] 0) 2 1 = true) :=
  ⟨by decide, broadcast_send_locks [Client.mk 1 [] [] 0 [] 1] [] 0 2 1 (encode_frame [])
    (by decide)⟩

/-! ## Message dispatch of `handle_websocket` (lines 359-459)

The C code locates fields by `strstr` substring scanning over the raw
message and extracts values up to the next double quote; the dispatch below
transcribes that scanning literally over `List Char`. -/

/-- C `strstr` on character lists: the suffix of the haystack starting at
the first occurrence of the needle, or `none`. -/
def strstr (hay needle : List Char) : Option (List Char) :=
  if needle.isPrefixOf hay then some hay
  else match hay with
    | [] => none
    | _ :: t => strstr t needle

/-- Index form of `strstr`: the offset of the first occurrence (the C
pointer difference). -/
def strstr_idx (hay needle : List Char) : Option Nat :=
  if needle.isPrefixOf hay then some 0
  else match hay with
    | [] => none
    | _ :: t => (strstr_idx t needle).map (· + 1)

/-- The characters before the next double quote: what
`strncpy(dst, p, strchr(p, 34) - p)` copies. -/
def take_to_quote (s : List Char) : List Char := s.takeWhile (fun c => c != dquote)

/-- C `atoi` digit loop. -/
def atoi_loop (s : List Char) (acc : Int) : Int :=
  match s with
  | [] => acc
  | c :: t => if c.isDigit then atoi_loop t (acc * 10 + ((c.toNat - 48 : Nat) : Int)) else acc

/-- C `atoi`: skip whitespace, optional sign, then digits. -/
def atoi (s : List Char) : Int :=
  match s.dropWhile (fun c => c.isWhitespace) with
  | [] => 0
  | c :: r =>
    if c = Char.ofNat 45 then - atoi_loop r 0
    else if c = Char.ofNat 43 then atoi_loop r 0
    else atoi_loop (c :: r) 0

/-- The substring keys the dispatch scans for. -/
def key_type_join : List Char := "\"type\":\"join\"".toList

/-- Key of the content_change kind. -/
def key_type_content_change : List Char := "\"type\":\"content_change\"".toList

/-- Key of the cursor_move kind. -/
def key_type_cursor_move : List Char := "\"type\":\"cursor_move\"".toList

/-- Key of the file_change kind. -/
def key_type_file_change : List Char := "\"type\":\"file_change\"".toList

/-- Username field key (12 characters, the C code skips 12). -/
def key_username : List Char := "\"username\":\"".toList

/-- File field key (8 characters, the C code skips 8). -/
def key_file : List Char := "\"file\":\"".toList

/-- Content field key (11 characters, the C code skips 11). -/
def key_content : List Char := "\"content\":\"".toList

/-- Position field key (11 characters, the C code skips 11). -/
def key_position : List Char := "\"position\":".toList

/-- Quote, comma, quote: the first delimiter `strstr`-ed for when slicing a
content field. -/
def quote_comma_quote : List Char := "\",\"".toList

/-- Quote then closing brace: the fallback delimiter, also the tail of every
built message. -/
def quote_brace : List Char := "\"\x7d".toList

/-- The content slice the content_change branch forwards: the C code cuts at
the first quote-comma-quote, else at the first quote-brace
(`cend - content`).  When neither occurs, `cend` stays NULL and the C
`strncat` length is undefined; the model then takes the whole rest. -/
def cc_slice (content : List Char) : List Char :=
  match strstr_idx content quote_comma_quote with
  | some i => content.take i
  | none =>
    match strstr_idx content quote_brace with
    | some i => content.take i
    | none => content

/-- The `content_update` message the relay builds (`snprintf` format of
lines 407-411). -/
def msg_content_update (uname fname slice : List Char) : List Char :=
  "\x7b\"type\":\"content_update\",\"username\":\"".toList ++ uname
  ++ "\",\"file\":\"".toList ++ fname
  ++ "\",\"content\":\"".toList ++ slice ++ quote_brace

/-- The `cursor_update` message the relay builds (`snprintf` format of
lines 440-442). -/
def msg_cursor_update (uname : List Char) (position : Int) (color fname : List Char) :
    List Char :=
  "\x7b\"type\":\"cursor_update\",\"username\":\"".toList ++ uname
  ++ "\",\"position\":".toList ++ (toString position).toList
  ++ ",\"color\":\"".toList ++ color
  ++ "\",\"file\":\"".toList ++ fname ++ quote_brace

/-- A visible effect of processing one message: a `broadcast_message` call
with its message and excluded socket. -/
inductive OutEvent where
  | broadcast : List Char → Nat → OutEvent
deriving DecidableEq

/-- The dispatch `handle_websocket` performs on one received message
(lines 371-457): the updated client state and the broadcasts issued.
Branches mirror the C if/else chain.  In the cursor_move and file_change
branches the C code does not check the closing-quote pointer and its
`strncpy` length is undefined when the quote is missing; the model then
copies the whole rest. -/
def process_message (client : Client) (message : List Char) : Client × List OutEvent :=
  if (strstr message key_type_join).isSome then
    match strstr message key_username with
    | some u0 =>
      if (u0.drop 12).contains dquote then
        ({ client with username := take_to_quote (u0.drop 12) }, [])
      else (client, [])
    | none => (client, [])
  else if (strstr message key_type_content_change).isSome then
    match strstr message key_username, strstr message key_file,
        strstr message key_content with
    | some u0, some f0, some c0 =>
      (client, [OutEvent.broadcast
        (msg_content_update (take_to_quote (u0.drop 12)) (take_to_quote (f0.drop 8))
          (cc_slice (c0.drop 11)))
        client.socket])
    | _, _, _ => (client, [])
  else if (strstr message key_type_cursor_move).isSome then
    match strstr message key_position, strstr message key_file,
        strstr message key_username with
    | some p0, some f0, some u0 =>
      ({ client with
          cursor_pos := atoi (p0.drop 11),
          current_file := take_to_quote (f0.drop 8),
          username := take_to_quote (u0.drop 12) },
       [OutEvent.broadcast
         (msg_cursor_update (take_to_quote (u0.drop 12)) (atoi (p0.drop 11)) client.color
           (take_to_quote (f0.drop 8)))
         client.socket])
    | _, _, _ => (client, [])
  else if (strstr message key_type_file_change).isSome then
    match strstr message key_file with
    | some f0 => ({ client with current_file := take_to_quote (f0.drop 8) }, [])
    | none => (client, [])
  else (client, [])

/-- Whether a message lacks a field that its kind requires, following the
dispatch order of the C if/else chain. -/
def lacks_required_field (message : List Char) : Bool :=
  if (strstr message key_type_join).isSome then (strstr message key_username).isNone
  else if (strstr message key_type_content_change).isSome then
    (strstr message key_username).isNone || (strstr message key_file).isNone ||
      (strstr message key_content).isNone
  else if (strstr message key_type_cursor_move).isSome then
    (strstr message key_position).isNone || (strstr message key_file).isNone ||
      (strstr message key_username).isNone
  else if (strstr message key_type_file_change).isSome then
    (strstr message key_file).isNone
  else false

/-- Claim C5: a message that lacks a required field for its kind is ignored
whole — the client's mutable fields are untouched and no broadcast is
issued — so the read loop simply continues with the next frame. -/
theorem missing_field_ignored (client : Client) (msg : List Char)
    (h : lacks_required_field msg = true) :
    process_message client msg = (client, []) := by
  unfold lacks_required_field at h
  unfold process_message
  split_ifs at h ⊢ with h1 h2 h3 h4
  · -- join kind
    rw [Option.isNone_iff_eq_none] at h
    rw [h]
  · -- content_change kind
    cases hu : strstr msg key_username with
    | none => simp [hu]
    | some u0 =>
      cases hf : strstr msg key_file with
      | none => simp [hu, hf]
      | some f0 =>
        cases hc : strstr msg key_content with
        | none => simp [hu, hf, hc]
        | some c0 =>
          rw [hu, hf, hc] at h
          simp at h
  · -- cursor_move kind
    cases hp : strstr msg key_position with
    | none => simp [hp]
    | some p0 =>
      cases hf : strstr msg key_file with
      | none => simp [hp, hf]
      | some f0 =>
        cases hu : strstr msg key_username with
        | none => simp [hp, hf, hu]
        | some u0 =>
          rw [hp, hf, hu] at h
          simp at h
  · -- file_change kind
    rw [Option.isNone_iff_eq_none] at h
    rw [h]

/-- A concrete client for the witnesses. -/
def sample_client : Client :=
  { socket := 7, username := [], current_file := [], cursor_pos := 0, color := [],
    active := 1 }

/-- A cursor_move message with no position, file or username field. -/
def sample_bare_cursor_msg : List Char := "\x7b\"type\":\"cursor_move\"\x7d".toList

/-- Witness for C5 on a cursor_move message with all fields missing. -/
theorem missing_field_ignored_witness :
    lacks_required_field sample_bare_cursor_msg = true
    ∧ process_message sample_client sample_bare_cursor_msg = (sample_client, []) :=
  ⟨by decide, missing_field_ignored sample_client sample_bare_cursor_msg (by decide)⟩

/-- Claim C6: a content_change message whose three fields are located is
re-broadcast unchanged as a content_update carrying exactly the extracted
username, file and content, excluding the sender's own socket; the sender's
session state is not modified. -/
theorem content_change_relay (client : Client) (msg : List Char)
    (hj : strstr msg key_type_join = none)
    (hcc : (strstr msg key_type_content_change).isSome = true)
    (hu : (strstr msg key_username).isSome = true)
    (hf : (strstr msg key_file).isSome = true)
    (hc : (strstr msg key_content).isSome = true) :
    process_message client msg =
      (client, [OutEvent.broadcast
        (msg_content_update (take_to_quote (((strstr msg key_username).getD []).drop 12))
          (take_to_quote (((strstr msg key_file).getD []).drop 8))
          (cc_slice (((strstr msg key_content).getD []).drop 11)))
        client.socket]) := by
  obtain ⟨u0, hu0⟩ := Option.isSome_iff_exists.mp hu
  obtain ⟨f0, hf0⟩ := Option.isSome_iff_exists.mp hf
  obtain ⟨c0, hc0⟩ := Option.isSome_iff_exists.mp hc
  unfold process_message
  rw [if_neg (by simp [hj]), if_pos hcc, hu0, hf0, hc0]
  simp [hu0, hf0, hc0]

/-- The scenario message of the specification: user A edits notes.md. -/
def sample_cc_msg : List Char :=
  "\x7b\"type\":\"content_change\",\"username\":\"A\",\"file\":\"notes.md\",\"content\":\"hi\"\x7d".toList

/-- Witness for C6 on the specification's scenario message. -/
theorem content_change_relay_witness :
    strstr sample_cc_msg key_type_join = none
    ∧ (strstr sample_cc_msg key_type_content_change).isSome = true
    ∧ (strstr sample_cc_msg key_username).isSome = true
    ∧ (strstr sample_cc_msg key_file).isSome = true
    ∧ (strstr sample_cc_msg key_content).isSome = true
    ∧ process_message sample_client sample_cc_msg =
        (sample_client, [OutEvent.broadcast
          (msg_content_update
            (take_to_quote (((strstr sample_cc_msg key_username).getD []).drop 12))
            (take_to_quote (((strstr sample_cc_msg key_file).getD []).drop 8))
            (cc_slice (((strstr sample_cc_msg key_content).getD []).drop 11)))
          sample_client.socket]) :=
  ⟨by decide, by decide, by decide, by decide, by decide,
    content_change_relay sample_client sample_cc_msg (by decide) (by decide) (by decide)
      (by decide) (by decide)⟩

/-- Claim C8: a file_change message updates only the client's current file;
username, cursor position, color, liveness flag and socket are unchanged and
no broadcast or unicast is issued. -/
theorem file_change_updates_file_only (client : Client) (msg : List Char)
    (hj : strstr msg key_type_join = none)
    (hcc : strstr msg key_type_content_change = none)
    (hcm : strstr msg key_type_cursor_move = none)
    (hfc : (strstr msg key_type_file_change).isSome = true)
    (hf : (strstr msg key_file).isSome = true) :
    (process_message client msg).1.username = client.username
    ∧ (process_message client msg).1.cursor_pos = client.cursor_pos
    ∧ (process_message client msg).1.color = client.color
    ∧ (process_message client msg).1.active = client.active
    ∧ (process_message client msg).1.socket = client.socket
    ∧ (process_message client msg).1.current_file =
        take_to_quote (((strstr msg key_file).getD []).drop 8)
    ∧ (process_message client msg).2 = [] := by
  obtain ⟨f0, hf0⟩ := Option.isSome_iff_exists.mp hf
  unfold process_message
  rw [if_neg (by simp [hj]), if_neg (by simp [hcc]), if_neg (by simp [hcm]), if_pos hfc, hf0]
  simp [hf0]

/-- A file_change message naming notes.md. -/
def sample_fc_msg : List Char := "\x7b\"type\":\"file_change\",\"file\":\"notes.md\"\x7d".toList

/-- Witness for C8 on a concrete file_change message. -/
theorem file_change_updates_file_only_witness :
    strstr sample_fc_msg key_type_join = none
    ∧ strstr sample_fc_msg key_type_content_change = none
    ∧ strstr sample_fc_msg key_type_cursor_move = none
    ∧ (strstr sample_fc_msg key_type_file_change).isSome = true
    ∧ (strstr sample_fc_msg key_file).isSome = true
    ∧ ((process_message sample_client sample_fc_msg).1.username = sample_client.username
       ∧ (process_message sample_client sample_fc_msg).1.cursor_pos = sample_client.cursor_pos
       ∧ (process_message sample_client sample_fc_msg).1.color = sample_client.color
       ∧ (process_message sample_client sample_fc_msg).1.active = sample_client.active
       ∧ (process_message sample_client sample_fc_msg).1.socket = sample_client.socket
       ∧ (process_message sample_client sample_fc_msg).1.current_file =
           take_to_quote (((strstr sample_fc_msg key_file).getD []).drop 8)
       ∧ (process_message sample_client sample_fc_msg).2 = []) :=
  ⟨by decide, by decide, by decide, by decide, by decide,
    file_change_updates_file_only sample_client sample_fc_msg (by decide) (by decide)
      (by decide) (by decide) (by decide)⟩

/-! ## Server state transitions (`websocket_server`, lines 555-595;
`handle_websocket`, lines 324-467)

The shared client list starts empty and changes only through
`add_client` (registration), the per-message field mutations of
`handle_websocket`, and `remove_client` (teardown). -/

/-- One transition of the shared client list. -/
inductive Step : List Client → List Client → Prop where
  | register (c : Client) (r : Nat) (l : List Client) : Step l (add_client c r l)
  | message (l : List Client) (s : Nat) (m : List Char) :
      Step l (l.map (fun c => if c.socket = s then (process_message c m).1 else c))
  | unregister (l : List Client) (s : Nat) : Step l (remove_client l s)

/-- The client lists reachable from the empty initial list. -/
inductive Reachable : List Client → Prop where
  | init : Reachable []
  | step {l l' : List Client} : Reachable l → Step l l' → Reachable l'

/-- Message processing never touches a client's color, liveness flag or
socket. -/
lemma process_message_fixed_fields (c : Client) (m : List Char) :
    (process_message c m).1.color = c.color
    ∧ (process_message c m).1.active = c.active
    ∧ (process_message c m).1.socket = c.socket := by
  unfold process_message
  repeat' split
  all_goals simp

/-- Every client surviving `remove_client` was in the original list. -/
lemma remove_client_subset {l : List Client} {s : Nat} {c : Client}
    (h : c ∈ remove_client l s) : c ∈ l := by
  induction l with
  | nil => simp [remove_client] at h
  | cons d t ih =>
    simp only [remove_client] at h
    split at h
    · exact List.mem_cons_of_mem d h
    · rcases List.mem_cons.mp h with rfl | h2
      · exact List.mem_cons_self _ _
      · exact List.mem_cons_of_mem d (ih h2)

/-- The color `add_client` assigns is a palette entry. -/
lemma colors_getD_mem (r : Nat) : colors.getD (r % 10) [] ∈ colors := by
  have hlt : r % 10 < colors.length := by
    have h10 : colors.length = 10 := by decide
    omega
  rw [List.getD_eq_getElem colors [] hlt]
  exact List.getElem_mem hlt

/-- Claim C10: in every reachable state every registered client has its
liveness flag equal to 1 — registration sets it and no operation ever
clears it — so the `active` filter of `broadcast_message` never excludes a
registered client. -/
theorem active_flag_invariant (l : List Client) (h : Reachable l) :
    (∀ c ∈ l, c.active = 1)
    ∧ ∀ S : Nat, broadcast_targets l S = l.filter (fun c => c.socket != S) := by
  have hinv : ∀ c ∈ l, c.active = 1 := by
    induction h with
    | init => intro c hc; simp at hc
    | step hr hs ih =>
      cases hs with
      | register c r l0 =>
        intro x hx
        rcases List.mem_cons.mp hx with rfl | hx2
        · rfl
        · exact ih x hx2
      | message l0 s m =>
        intro x hx
        rw [List.mem_map] at hx
        obtain ⟨y, hy, rfl⟩ := hx
        split
        · rw [(process_message_fixed_fields y m).2.1]
          exact ih y hy
        · exact ih y hy
      | unregister l0 s =>
        intro x hx
        exact ih x (remove_client_subset hx)
  refine ⟨hinv, ?_⟩
  intro S
  apply List.filter_congr
  intro x hx
  simp [hinv x hx]

/-- Witness for C10: a state with one registered client. -/
theorem active_flag_invariant_witness :
    Reachable (add_client sample_client 3 [])
    ∧ (∀ c ∈ add_client sample_client 3 [], c.active = 1)
    ∧ broadcast_targets (add_client sample_client 3 []) 5 =
        (add_client sample_client 3 []).filter (fun c => c.socket != 5) :=
  have hr : Reachable (add_client sample_client 3 []) :=
    Reachable.step Reachable.init (Step.register sample_client 3 [])
  ⟨hr, (active_flag_invariant _ hr).1, (active_flag_invariant _ hr).2 5⟩

/-- Claim C9: a client's display color is assigned exactly once, at
registration, as an entry of the fixed 10-entry palette, and no processed
message ever modifies it; hence in every reachable state every registered
client's color is a palette entry. -/
theorem color_palette_invariant (l : List Client) (h : Reachable l) :
    (∀ c ∈ l, c.color ∈ colors)
    ∧ (∀ (c : Client) (m : List Char), (process_message c m).1.color = c.color)
    ∧ (∀ (c : Client) (r : Nat) (l0 : List Client),
        add_client c r l0 =
          ({ c with active := 1, color := colors.getD (r % 10) [] } :: l0)
        ∧ colors.getD (r % 10) [] ∈ colors)
    ∧ (∀ (l0 : List Client) (s : Nat) (c : Client),
        c ∈ remove_client l0 s → c ∈ l0) := by
  have hinv : ∀ c ∈ l, c.color ∈ colors := by
    induction h with
    | init => intro c hc; simp at hc
    | step hr hs ih =>
      cases hs with
      | register c r l0 =>
        intro x hx
        rcases List.mem_cons.mp hx with rfl | hx2
        · exact colors_getD_mem r
        · exact ih x hx2
      | message l0 s m =>
        intro x hx
        rw [List.mem_map] at hx
        obtain ⟨y, hy, rfl⟩ := hx
        split
        · rw [(process_message_fixed_fields y m).1]
          exact ih y hy
        · exact ih y hy
      | unregister l0 s =>
        intro x hx
        exact ih x (remove_client_subset hx)
  exact ⟨hinv, fun c m => (process_message_fixed_fields c m).1,
    fun c r l0 => ⟨rfl, colors_getD_mem r⟩,
    fun l0 s c hc => remove_client_subset hc⟩

/-- Witness for C9: a state with one registered client. -/
theorem color_palette_invariant_witness :
    Reachable (add_client sample_client 3 [])
    ∧ (∀ c ∈ add_client sample_client 3 [], c.color ∈ colors) :=
  have hr : Reachable (add_client sample_client 3 []) :=
    Reachable.step Reachable.init (Step.register sample_client 3 [])
  ⟨hr, (color_palette_invariant _ hr).1⟩

/-! ## The Active read loop (`handle_websocket`, lines 359-369) -/

/-- What one loop iteration does with the recv result and buffer. -/
inductive LoopAction where
  | exit : LoopAction
  | continue_loop : LoopAction
  | handle : List Nat → LoopAction
deriving DecidableEq

/-- One iteration of the Active read loop: a recv result `≤ 0` breaks the
loop; a NULL `ws_read_frame` result makes it continue with the next read;
otherwise the decoded message is dispatched. -/
def loop_step (recv_bytes : Int) (buffer : List Nat) : LoopAction :=
  if recv_bytes ≤ 0 then LoopAction.exit
  else match ws_read_frame buffer with
    | none => LoopAction.continue_loop
    | some msg => LoopAction.handle msg

/-- Counterexample to claim C4 as stated: a close frame (opcode 0x8)
decodes to the same `none` as an incomplete buffer — no distinguished
ControlClose signal exists — and the read loop continues on it instead of
terminating. -/
theorem close_frame_not_terminating_cex :
    ws_read_frame [0x88, 0] = none
    ∧ ws_read_frame [0x81] = none
    ∧ loop_step 2 [0x88, 0] = LoopAction.continue_loop
    ∧ loop_step 2 [0x88, 0] ≠ LoopAction.exit := by
  decide

/-- Claim C4 amended: on a frame with the close opcode, `ws_read_frame`
returns `none` — indistinguishable from an incomplete frame — and the read
loop discards it and continues; the loop terminates only when the read
itself fails or reports end of stream. -/
theorem close_frame_discarded (r : Int) (buffer : List Nat)
    (hlen : 2 ≤ buffer.length) (hop : buffer.getD 0 0 &&& 0x0F = 8) :
    ws_read_frame buffer = none
    ∧ (loop_step r buffer = LoopAction.exit ↔ r ≤ 0)
    ∧ (0 < r → loop_step r buffer = LoopAction.continue_loop) := by
  have hnone : ws_read_frame buffer = none := by
    unfold ws_read_frame
    rw [if_neg (by omega), if_pos hop]
  refine ⟨hnone, ?_, ?_⟩
  · unfold loop_step
    rw [hnone]
    constructor
    · intro hex
      by_cases hr : r ≤ 0
      · exact hr
      · rw [if_neg hr] at hex
        exact absurd hex (by simp)
    · intro hr
      rw [if_pos hr]
  · intro hr
    unfold loop_step
    rw [hnone, if_neg (by omega)]

/-- Witness for the amended C4 theorem on a concrete close frame. -/
theorem close_frame_discarded_witness :
    2 ≤ [0x88, 0, 9].length
    ∧ ([0x88, 0, 9].getD 0 0 &&& 0x0F = 8)
    ∧ (ws_read_frame [0x88, 0, 9] = none
       ∧ (loop_step 2 [0x88, 0, 9] = LoopAction.exit ↔ (2 : Int) ≤ 0)
       ∧ ((0 : Int) < 2 → loop_step 2 [0x88, 0, 9] = LoopAction.continue_loop)) :=
  ⟨by decide, by decide, close_frame_discarded 2 [0x88, 0, 9] (by decide) (by decide)⟩

end CollabEditor
